import Mathlib

/-!
Verification of `copy_jam_documents.py`.

The program is a one-shot batch job: it asserts configuration, fetches wiki
pages by label, lists Google Drive items, deletes every non-folder item it
listed, then renders each page to PDF, writes it under `/tmp/<slug>.pdf` and
uploads it.

We embed the program shallowly:

* Strings processed by `slugify` are modelled as lists of Unicode code points
  (`List Nat`); a `String`-level wrapper `slugify` converts through
  `Char.toNat` / `Char.ofNat`.
* The side-effecting run (`main`) is modelled as a pure function from the
  configuration environment and the external world's responses to the list of
  external effects the run performs, together with the error it ends with, if
  any.
-/

namespace CopyJam

/-- Code point is ASCII-encodable: `str.encode("ascii", "ignore")` keeps
exactly the code points below 128 and drops the rest. -/
def isAsciiCode (n : Nat) : Bool := n < 128

/-- ASCII code points matched by Python's `\s` regex class
(`re.findall(r"\s", ...)` over the ASCII range matches
TAB, LF, VT, FF, CR, FS, GS, RS, US and SPACE). -/
def isPySpace (n : Nat) : Bool :=
  n == 32 || n == 9 || n == 10 || n == 11 || n == 12 || n == 13 ||
  n == 28 || n == 29 || n == 30 || n == 31

/-- ASCII code points matched by Python's `\w` regex class:
letters, digits and underscore. -/
def isPyWord (n : Nat) : Bool :=
  (97 ≤ n && n ≤ 122) || (65 ≤ n && n ≤ 90) || (48 ≤ n && n ≤ 57) || n == 95

/-- `str.lower()` restricted to ASCII input: map the uppercase letters
`A`–`Z` (65–90) to `a`–`z` (97–122), leave everything else unchanged. -/
def asciiLower (n : Nat) : Nat := if 65 ≤ n && n ≤ 90 then n + 32 else n

/-- Character class `[-\s]` of the collapsing regex: hyphen (45) or
whitespace. -/
def isDashSpace (n : Nat) : Bool := n == 45 || isPySpace n

/-- Characters removed by `str.strip("-_")`: hyphen (45) or underscore
(95). -/
def isStripChar (n : Nat) : Bool := n == 45 || n == 95

/-- NFKD decomposition of a single code point, modelled for the characters
occurring in this development: `é` (U+00E9) decomposes to `e` + combining
acute (U+0301) and `à` (U+00E0) to `a` + combining grave (U+0300).  Code
points without an entry are kept unchanged, which is correct for all ASCII
code points and for the em dash U+2014 (none of which decompose under
NFKD). -/
def nfkdDecomp (n : Nat) : List Nat :=
  if n == 0xE9 then [101, 0x301]
  else if n == 0xE0 then [97, 0x300]
  else [n]

/-- `unicodedata.normalize("NFKD", value)`: pointwise decomposition.
(Canonical reordering only permutes combining marks, all of which are
non-ASCII and are dropped by the subsequent ASCII filter, so it does not
affect `slugify`.) -/
def nfkd (l : List Nat) : List Nat := l.flatMap nfkdDecomp

/-- `re.sub(r"[-\s]+", "-", value)`: replace each maximal run of hyphens and
whitespace by a single hyphen.  The boolean flag records whether the previous
character belonged to the current run. -/
def collapse : Bool → List Nat → List Nat
  | _, [] => []
  | prevRun, n :: ns =>
    if isDashSpace n then
      if prevRun then collapse true ns else 45 :: collapse true ns
    else n :: collapse false ns

/-- Remove the maximal trailing run of hyphens/underscores (the right half of
`str.strip("-_")`). -/
def dropTrailingStrip : List Nat → List Nat
  | [] => []
  | n :: ns =>
    match dropTrailingStrip ns with
    | [] => if isStripChar n then [] else [n]
    | r => n :: r

/-- `str.strip("-_")`: drop leading and trailing hyphens/underscores. -/
def pyStrip (l : List Nat) : List Nat :=
  dropTrailingStrip (l.dropWhile isStripChar)

/-- `slugify` from `copy_jam_documents.py` on code-point lists, following the
source line by line: NFKD-normalize and keep only ASCII code points
(`encode("ascii", "ignore")`), lowercase, delete everything outside
`[\w\s-]`, collapse runs of `[-\s]` to a single hyphen, and strip leading and
trailing `-`/`_`. -/
def slugifyN (l : List Nat) : List Nat :=
  let ascii := (nfkd l).filter isAsciiCode
  let lowered := ascii.map asciiLower
  let filtered := lowered.filter (fun n => isPyWord n || isPySpace n || n == 45)
  pyStrip (collapse false filtered)

/-- `slugify` on Lean strings: apply `slugifyN` to the code points. -/
def slugify (s : String) : String :=
  String.mk ((slugifyN (s.data.map Char.toNat)).map Char.ofNat)

/-- Lowercase-alphanumeric code points `[a-z0-9]`, the character class of the
spec's slug regular expression. -/
def isSlugAlnum (n : Nat) : Bool := (97 ≤ n && n ≤ 122) || (48 ≤ n && n ≤ 57)

/-- The character class `[a-z0-9_]` (the spec's class widened by
underscore). -/
def isSlugAlnumU (n : Nat) : Bool := isSlugAlnum n || n == 95

/-- Matcher for the anchored regular expression `alnum+(-alnum+)*` over code
points, parameterized by the character class `alnum`.  The boolean state is
`true` when the next character must begin a new segment (at the start of the
input and right after a hyphen). -/
def slugAux (alnum : Nat → Bool) : Bool → List Nat → Bool
  | needSeg, [] => !needSeg
  | true, n :: ns => alnum n && slugAux alnum false ns
  | false, n :: ns =>
    if n == 45 then slugAux alnum true ns else alnum n && slugAux alnum false ns

/-- Whether a string matches the spec's regex `^[a-z0-9]+(-[a-z0-9]+)*$`. -/
def matchesSlugRe (s : String) : Bool :=
  slugAux isSlugAlnum true (s.data.map Char.toNat)

/-- Whether a string matches `^[a-z0-9_]+(-[a-z0-9_]+)*$`. -/
def matchesSlugReU (s : String) : Bool :=
  slugAux isSlugAlnumU true (s.data.map Char.toNat)

/-- No two adjacent hyphens (code 45) anywhere in the list. -/
def noDD : List Nat → Bool
  | [] => true
  | [_] => true
  | a :: b :: rest => !(a == 45 && b == 45) && noDD (b :: rest)

/-- A Drive item as returned by `files().list`, together with the folder(s)
it resides in (`parents` is metadata of the file in the store; the program
neither requests nor inspects it). -/
structure DriveFile where
  id : String
  name : String
  mimeType : String
  parents : List String
deriving DecidableEq

/-- A Confluence page as returned by `get_all_pages_by_label`. -/
structure Page where
  id : String
  title : String
deriving DecidableEq

/-- The environment variables read by `main` (`None` = unset). -/
structure Env where
  confluenceDomain : Option String
  jiraToken : Option String
  jiraUser : Option String
  confluenceLabel : Option String
  googleDriveFolderId : Option String

/-- Responses of the external services: the pages the wiki returns for the
label query, the items the Drive listing returns, and the PDF bytes the wiki
renders for a given page id. -/
structure World where
  pages : List Page
  driveItems : List DriveFile
  pdf : String → String

/-- An observable external effect of the run. -/
inductive Effect where
  | fetchPages (label : String)
  | listDrive
  | deleteDrive (fileId : String)
  | renderPdf (pageId : String)
  | writeTmp (path content : String)
  | uploadDrive (path folderId : String)
deriving DecidableEq

/-- How the run ends abnormally: a failed `assert` or a Python `TypeError`. -/
inductive RunError where
  | assertionError (msg : String)
  | typeError (msg : String)
deriving DecidableEq

/-- The mime type the purge loop filters out. -/
def googleFolderMime : String := "application/vnd.google-apps.folder"

/-- Default of the `GOOGLE_DRIVE_FOLDER_ID` environment variable. -/
def defaultFolderId : String := "1HsnsarPvc7UyD-fgvCcdx_Zm9FBhv4mM"

/-- Python truthiness of an optional environment value, as tested by
`assert`: unset (`None`) and the empty string are falsy. -/
def truthy : Option String → Bool
  | none => false
  | some s => !s.isEmpty

/-- `read_google_drive`: one `files().list(pageSize=50)` call; returns the
items, or `None` (and prints) when the listing is empty. -/
def read_google_drive (items : List DriveFile) :
    List Effect × Option (List DriveFile) :=
  ([Effect.listDrive], if items.isEmpty then none else some items)

/-- `delete_from_google_drive`: one `files().delete(fileId=...)` call. -/
def delete_from_google_drive (fileId : String) : List Effect :=
  [Effect.deleteDrive fileId]

/-- `upload_google_drive`: one `files().create` call uploading the local
file at `filename` into the folder `folderId`. -/
def upload_google_drive (filename folderId : String) : List Effect :=
  [Effect.uploadDrive filename folderId]

/-- Body of the page loop in `main`: render the page to PDF, write it to
`/tmp/<slug>.pdf` (overwriting whatever is there), then upload that path. -/
def processPage (w : World) (folderId : String) (p : Page) : List Effect :=
  let title := slugify p.title
  let path := "/tmp/" ++ title ++ ".pdf"
  [Effect.renderPdf p.id, Effect.writeTmp path (w.pdf p.id)] ++
    upload_google_drive path folderId

/-- `main` from `copy_jam_documents.py`: read configuration, assert the
required values, fetch the pages for the label, list Drive items, delete
every non-folder item listed (aborting with a `TypeError` when the listing
step returned `None`), then process each page.  Returns the effect trace and
the error the run ends with, if any. -/
def main (env : Env) (w : World) : List Effect × Option RunError :=
  let label := env.confluenceLabel.getD "jam"
  let directoryId := env.googleDriveFolderId.getD defaultFolderId
  if !truthy env.confluenceDomain then
    ([], some (RunError.assertionError "CONFLUENCE_DOMAIN not set as environmental variable"))
  else if !truthy env.jiraToken then
    ([], some (RunError.assertionError "JIRA_TOKEN not set as environmental variable"))
  else if !truthy env.jiraUser then
    ([], some (RunError.assertionError "JIRA_USER not set as environmental variable"))
  else if label.isEmpty then
    ([], some (RunError.assertionError "CONFLUENCE_LABEL not set as environmental variable"))
  else
    let t1 := [Effect.fetchPages label]
    let listed := read_google_drive w.driveItems
    match listed.2 with
    | none =>
      (t1 ++ listed.1, some (RunError.typeError "NoneType object is not iterable"))
    | some items =>
      let drive_files := items.filter (fun x => x.mimeType != googleFolderMime)
      let t3 := drive_files.flatMap (fun f => delete_from_google_drive f.id)
      let t4 := w.pages.flatMap (processPage w directoryId)
      (t1 ++ listed.1 ++ t3 ++ t4, none)

/-- All required configuration values pass the `assert`s. -/
def configOk (env : Env) : Bool :=
  truthy env.confluenceDomain && truthy env.jiraToken && truthy env.jiraUser &&
    !(env.confluenceLabel.getD "jam").isEmpty

/-- Paths of the upload effects of a trace, in order. -/
def uploadPathsOf (t : List Effect) : List String :=
  t.filterMap fun e =>
    match e with
    | Effect.uploadDrive p _ => some p
    | _ => none

/-- A fully-set configuration environment used in concrete runs. -/
def envOK : Env :=
  ⟨some "example", some "secret-token", some "user", none, none⟩

/-- World for the folder-scoping run: the service account sees one non-folder
file residing in a folder other than the target folder, and the wiki returns
no pages. -/
def wScope : World :=
  ⟨[], [⟨"f1", "doc.pdf", "application/pdf", ["folder-B"]⟩], fun _ => "PDF"⟩

/-- World for the duplicate-title run: two pages both titled
`Weekly Sync` with distinct PDF payloads, one stale non-folder file in
the listing. -/
def wDup : World :=
  ⟨[⟨"p1", "Weekly Sync"⟩, ⟨"p2", "Weekly Sync"⟩],
   [⟨"f1", "old.pdf", "application/pdf", []⟩],
   fun pid => if pid == "p1" then "PDF-ONE" else "PDF-TWO"⟩

/-- An environment with the `JIRA_TOKEN` variable unset. -/
def envMissing : Env := ⟨some "example", none, some "user", none, none⟩

/-- A world whose Drive listing comes back empty. -/
def wEmptyDrive : World := ⟨[], [], fun _ => ""⟩

/-- `asciiLower` never produces an uppercase letter. -/
theorem asciiLower_not_upper (m : Nat) : ¬(65 ≤ asciiLower m ∧ asciiLower m ≤ 90) := by
  unfold asciiLower
  split
  · next h => simp at h; omega
  · next h => simp at h; omega

/-- Every element of a collapsed list is a hyphen or a non-`[-\s]` element of
the input. -/
theorem mem_collapse {l : List Nat} :
    ∀ {b : Bool} {n : Nat}, n ∈ collapse b l → n = 45 ∨ (n ∈ l ∧ isDashSpace n = false) := by
  induction l with
  | nil => intro b n h; simp [collapse] at h
  | cons m ms ih =>
    intro b n h
    by_cases hm : isDashSpace m = true
    · cases b with
      | true =>
        simp only [collapse, hm, if_true] at h
        rcases ih h with h45 | ⟨hmem, hnd⟩
        · exact Or.inl h45
        · exact Or.inr ⟨List.mem_cons_of_mem _ hmem, hnd⟩
      | false =>
        simp only [collapse, hm, if_true] at h
        rcases List.mem_cons.mp h with rfl | h'
        · exact Or.inl rfl
        · rcases ih h' with h45 | ⟨hmem, hnd⟩
          · exact Or.inl h45
          · exact Or.inr ⟨List.mem_cons_of_mem _ hmem, hnd⟩
    · simp only [collapse, hm, if_false, Bool.false_eq_true] at h
      rcases List.mem_cons.mp h with rfl | h'
      · exact Or.inr ⟨List.mem_cons_self _ _, Bool.not_eq_true _ ▸ hm⟩
      · rcases ih h' with h45 | ⟨hmem, hnd⟩
        · exact Or.inl h45
        · exact Or.inr ⟨List.mem_cons_of_mem _ hmem, hnd⟩

/-- `dropTrailingStrip` only removes elements. -/
theorem mem_dropTrailingStrip {l : List Nat} {n : Nat}
    (h : n ∈ dropTrailingStrip l) : n ∈ l := by
  induction l with
  | nil => simp [dropTrailingStrip] at h
  | cons m ms ih =>
    rw [dropTrailingStrip] at h
    cases hr : dropTrailingStrip ms with
    | nil =>
      rw [hr] at h
      by_cases hs : isStripChar m = true
      · simp [hs] at h
      · simp [hs] at h
        simp [h]
    | cons r rs =>
      rw [hr] at h
      rcases List.mem_cons.mp h with rfl | h'
      · exact List.mem_cons_self _ _
      · exact List.mem_cons_of_mem _ (ih (hr ▸ h'))

/-- `pyStrip` only removes elements. -/
theorem mem_pyStrip {l : List Nat} {n : Nat} (h : n ∈ pyStrip l) : n ∈ l :=
  (List.dropWhile_suffix isStripChar).subset (mem_dropTrailingStrip h)

/-- Every code point of a slug is in `[a-z0-9_]` or is a hyphen. -/
theorem slugifyN_alphabet {l : List Nat} {n : Nat}
    (h : n ∈ slugifyN l) : isSlugAlnumU n = true ∨ n = 45 := by
  unfold slugifyN at h
  rcases mem_collapse (mem_pyStrip h) with h45 | ⟨hmem, hnd⟩
  · exact Or.inr h45
  · left
    rcases List.mem_filter.mp hmem with ⟨hlow, hpred⟩
    rcases List.mem_map.mp hlow with ⟨m, _, rfl⟩
    have hup := asciiLower_not_upper m
    revert hpred hnd hup
    simp [isPyWord, isPySpace, isDashSpace, isSlugAlnumU, isSlugAlnum]
    omega

/-- `noDD` is preserved when dropping the head. -/
theorem noDD_tail {a : Nat} {l : List Nat} (h : noDD (a :: l) = true) :
    noDD l = true := by
  cases l with
  | nil => rfl
  | cons b bs => simp only [noDD, Bool.and_eq_true] at h; exact h.2

/-- Build `noDD` of a cons from `noDD` of the tail and a condition on the
first two elements. -/
theorem noDD_cons_of {a : Nat} {r : List Nat} (h1 : noDD r = true)
    (h2 : ∀ b, r.head? = some b → (a == 45 && b == 45) = false) :
    noDD (a :: r) = true := by
  cases r with
  | nil => rfl
  | cons b bs =>
    rw [noDD, Bool.and_eq_true]
    exact ⟨by rw [h2 b rfl]; rfl, h1⟩

/-- After a hyphen has just been emitted, `collapse` never emits another
one first. -/
theorem head_collapse_true {l : List Nat} : (collapse true l).head? ≠ some 45 := by
  induction l with
  | nil => simp [collapse]
  | cons m ms ih =>
    by_cases hm : isDashSpace m = true
    · simpa [collapse, hm] using ih
    · simp only [collapse, hm, Bool.false_eq_true, if_false, List.head?_cons]
      intro hc
      apply hm
      simp [isDashSpace, (Option.some.inj hc)]

/-- A collapsed list never has two adjacent hyphens. -/
theorem noDD_collapse (l : List Nat) : ∀ b : Bool, noDD (collapse b l) = true := by
  induction l with
  | nil => intro b; rfl
  | cons m ms ih =>
    intro b
    by_cases hm : isDashSpace m = true
    · cases b with
      | true => simpa [collapse, hm] using ih true
      | false =>
        simp only [collapse, hm, if_true]
        refine noDD_cons_of (ih true) ?_
        intro c hc
        have : c ≠ 45 := fun h => head_collapse_true (h ▸ hc)
        simp [this]
    · simp only [collapse, hm, Bool.false_eq_true, if_false]
      refine noDD_cons_of (ih false) ?_
      intro c _
      have : m ≠ 45 := by
        intro h
        apply hm
        simp [isDashSpace, h]
      simp [this]

/-- `noDD` survives `dropWhile`. -/
theorem noDD_dropWhile {p : Nat → Bool} {l : List Nat} (h : noDD l = true) :
    noDD (l.dropWhile p) = true := by
  induction l with
  | nil => exact h
  | cons m ms ih =>
    rw [List.dropWhile_cons]
    split
    · exact ih (noDD_tail h)
    · exact h

/-- The head survives `dropTrailingStrip` whenever the result is nonempty. -/
theorem dts_head {l : List Nat} {a : Nat}
    (h : (dropTrailingStrip l).head? = some a) : l.head? = some a := by
  cases l with
  | nil => simp [dropTrailingStrip] at h
  | cons m ms =>
    rw [dropTrailingStrip] at h
    cases hr : dropTrailingStrip ms with
    | nil =>
      rw [hr] at h
      by_cases hs : isStripChar m = true
      · simp [hs] at h
      · simp [hs] at h
        simp [h]
    | cons r rs => rw [hr] at h; simpa using h

/-- `noDD` survives `dropTrailingStrip`. -/
theorem noDD_dts {l : List Nat} (h : noDD l = true) :
    noDD (dropTrailingStrip l) = true := by
  induction l with
  | nil => exact h
  | cons m ms ih =>
    rw [dropTrailingStrip]
    cases hr : dropTrailingStrip ms with
    | nil =>
      by_cases hs : isStripChar m = true <;> simp [hs, noDD]
    | cons r rs =>
      refine noDD_cons_of (hr ▸ ih (noDD_tail h)) ?_
      intro c hc
      have hms : ms.head? = some c := dts_head (hr ▸ hc)
      cases ms with
      | nil => simp at hms
      | cons b bs =>
        have hb : b = c := Option.some.inj hms
        rw [noDD, Bool.and_eq_true] at h
        rw [← hb]
        exact (Bool.not_eq_true' _).mp h.1

/-- The last element of `dropTrailingStrip` is never a strip character. -/
theorem dts_getLast {l : List Nat} {a : Nat}
    (h : (dropTrailingStrip l).getLast? = some a) : isStripChar a = false := by
  induction l with
  | nil => simp [dropTrailingStrip] at h
  | cons m ms ih =>
    rw [dropTrailingStrip] at h
    cases hr : dropTrailingStrip ms with
    | nil =>
      rw [hr] at h
      by_cases hs : isStripChar m = true
      · simp [hs] at h
      · simp [hs] at h
        rw [← h]
        exact Bool.eq_false_iff.mpr hs
    | cons r rs =>
      rw [hr, List.getLast?_cons_cons, ← hr] at h
      exact ih h

/-- The head of `dropWhile p` never satisfies `p`. -/
theorem dropWhile_head {p : Nat → Bool} {l : List Nat} {a : Nat}
    (h : (l.dropWhile p).head? = some a) : p a = false := by
  induction l with
  | nil => simp at h
  | cons m ms ih =>
    rw [List.dropWhile_cons] at h
    split at h
    · exact ih h
    · next hp =>
      have : m = a := Option.some.inj (by simpa using h)
      rw [← this]
      exact Bool.eq_false_iff.mpr hp

/-- A slug has no two adjacent hyphens. -/
theorem slugifyN_noDD (l : List Nat) : noDD (slugifyN l) = true := by
  unfold slugifyN pyStrip
  exact noDD_dts (noDD_dropWhile (noDD_collapse _ false))

/-- A slug never starts with a hyphen or underscore. -/
theorem slugifyN_head {l : List Nat} {a : Nat}
    (h : (slugifyN l).head? = some a) : isStripChar a = false := by
  unfold slugifyN pyStrip at h
  exact dropWhile_head (dts_head h)

/-- A slug never ends with a hyphen or underscore. -/
theorem slugifyN_getLast {l : List Nat} {a : Nat}
    (h : (slugifyN l).getLast? = some a) : isStripChar a = false := by
  unfold slugifyN pyStrip at h
  exact dts_getLast h

/-- A nonempty list over `[a-z0-9_-]` with no adjacent hyphens that neither
starts nor ends with a hyphen is accepted by the `[a-z0-9_]+(-[a-z0-9_]+)*`
matcher.  Both matcher states are handled simultaneously for the
induction. -/
theorem slugAux_of_good :
    ∀ l : List Nat, (∀ n ∈ l, isSlugAlnumU n = true ∨ n = 45) → noDD l = true →
      l.getLast? ≠ some 45 →
      (slugAux isSlugAlnumU false l = true ∧
        (l.head? ≠ some 45 → l ≠ [] → slugAux isSlugAlnumU true l = true)) := by
  intro l
  induction l with
  | nil =>
    intro _ _ _
    exact ⟨rfl, fun _ h => absurd rfl h⟩
  | cons n ns ih =>
    intro hchars hdd hlast
    have hchars' : ∀ m ∈ ns, isSlugAlnumU m = true ∨ m = 45 :=
      fun m hm => hchars m (List.mem_cons_of_mem _ hm)
    have hdd' := noDD_tail hdd
    have hlast' : ns.getLast? ≠ some 45 := by
      cases ns with
      | nil => simp
      | cons b bs => rw [List.getLast?_cons_cons] at hlast; exact hlast
    have IH := ih hchars' hdd' hlast'
    by_cases h45 : n = 45
    · subst h45
      cases ns with
      | nil => simp at hlast
      | cons b bs =>
        have hb : b ≠ 45 := by
          intro hb
          subst hb
          simp [noDD] at hdd
        refine ⟨?_, ?_⟩
        · simp only [slugAux, if_pos (by rfl : (45 == 45) = true)]
          exact IH.2 (by simp [hb]) (by simp)
        · intro hhead _
          simp at hhead
    · have halnum : isSlugAlnumU n = true := by
        rcases hchars n (List.mem_cons_self _ _) with h | h
        · exact h
        · exact absurd h h45
      refine ⟨?_, ?_⟩
      · simp [slugAux, h45, halnum, IH.1]
      · intro _ _
        simp [slugAux, halnum, IH.1]

/-- Shape of every slug: it is empty, or it matches
`^[a-z0-9_]+(-[a-z0-9_]+)*$` and neither starts nor ends with an
underscore. -/
theorem slugifyN_shape (l : List Nat) :
    slugifyN l = [] ∨
      (slugAux isSlugAlnumU true (slugifyN l) = true ∧
        (slugifyN l).head? ≠ some 95 ∧ (slugifyN l).getLast? ≠ some 95) := by
  by_cases hnil : slugifyN l = []
  · exact Or.inl hnil
  · right
    obtain ⟨a, as, hr⟩ := List.exists_cons_of_ne_nil hnil
    have hchars : ∀ n ∈ slugifyN l, isSlugAlnumU n = true ∨ n = 45 :=
      fun n hn => slugifyN_alphabet hn
    have hdd := slugifyN_noDD l
    have hhead : (slugifyN l).head? = some a := by rw [hr]; rfl
    have hstrip := slugifyN_head hhead
    simp only [isStripChar, Bool.or_eq_false_iff, beq_eq_false_iff_ne, ne_eq] at hstrip
    have hlast45 : (slugifyN l).getLast? ≠ some 45 := by
      intro hc
      have := slugifyN_getLast hc
      simp [isStripChar] at this
    have hlast95 : (slugifyN l).getLast? ≠ some 95 := by
      intro hc
      have := slugifyN_getLast hc
      simp [isStripChar] at this
    have hgood := slugAux_of_good (slugifyN l) hchars hdd hlast45
    refine ⟨?_, ?_, hlast95⟩
    · refine hgood.2 ?_ hnil
      rw [hhead]
      intro hc
      exact hstrip.1 (Option.some.inj hc)
    · rw [hhead]
      intro hc
      exact hstrip.2 (Option.some.inj hc)

/-- `Char.toNat` inverts `Char.ofNat` on the code points a slug can
contain. -/
theorem toNat_ofNat_le {n : Nat} (h : n ≤ 122) : (Char.ofNat n).toNat = n := by
  interval_cases n <;> rfl

/-- Round trip through `Char` for lists of small code points. -/
theorem map_toNat_map_ofNat {ns : List Nat} (h : ∀ n ∈ ns, n ≤ 122) :
    (ns.map Char.ofNat).map Char.toNat = ns := by
  induction ns with
  | nil => rfl
  | cons m ms ih =>
    simp only [List.map_cons, List.cons.injEq]
    exact ⟨toNat_ofNat_le (h m (List.mem_cons_self _ _)),
      ih fun n hn => h n (List.mem_cons_of_mem _ hn)⟩

/-- Slug code points are at most 122. -/
theorem slug_alnum_le {n : Nat} (h : isSlugAlnumU n = true ∨ n = 45) : n ≤ 122 := by
  rcases h with h | h
  · simp [isSlugAlnumU, isSlugAlnum] at h
    omega
  · omega

/-- The code points of `slugify s` are exactly `slugifyN` of the code points
of `s`. -/
theorem slugify_data (s : String) :
    (slugify s).data.map Char.toNat = slugifyN (s.data.map Char.toNat) :=
  map_toNat_map_ofNat fun _ hn => slug_alnum_le (slugifyN_alphabet hn)

/-- Small code points are NFKD-invariant in the modelled table. -/
theorem nfkdDecomp_small {n : Nat} (h : n ≤ 122) : nfkdDecomp n = [n] := by
  have h1 : (n == 0xE9) = false := by simp; omega
  have h2 : (n == 0xE0) = false := by simp; omega
  simp [nfkdDecomp, h1, h2]

/-- NFKD is the identity on lists of small code points. -/
theorem nfkd_eq_self {l : List Nat} (h : ∀ n ∈ l, n ≤ 122) : nfkd l = l := by
  induction l with
  | nil => rfl
  | cons m ms ih =>
    have hm := nfkdDecomp_small (h m (List.mem_cons_self _ _))
    have hms := ih fun n hn => h n (List.mem_cons_of_mem _ hn)
    simp only [nfkd, List.flatMap_cons]
    rw [hm]
    simp only [List.singleton_append, List.cons.injEq]
    exact ⟨trivial, by simpa [nfkd] using hms⟩

/-- `asciiLower` is the identity on lists without uppercase letters. -/
theorem map_asciiLower_eq_self {l : List Nat}
    (h : ∀ n ∈ l, ¬(65 ≤ n ∧ n ≤ 90)) : l.map asciiLower = l := by
  induction l with
  | nil => rfl
  | cons m ms ih =>
    have hm : asciiLower m = m := by
      have hup := h m (List.mem_cons_self _ _)
      unfold asciiLower
      split
      · next hc => simp at hc; exact absurd hc hup
      · rfl
    simp [hm, ih fun n hn => h n (List.mem_cons_of_mem _ hn)]

/-- `collapse` is the identity on whitespace-free lists with no adjacent
hyphens (in the fresh state; in the in-run state provided the list does not
start with a hyphen). -/
theorem collapse_eq_self :
    ∀ l : List Nat, (∀ n ∈ l, isPySpace n = false) → noDD l = true →
      (collapse false l = l ∧ (l.head? ≠ some 45 → collapse true l = l)) := by
  intro l
  induction l with
  | nil => intro _ _; exact ⟨rfl, fun _ => rfl⟩
  | cons n ns ih =>
    intro hsp hdd
    have IH := ih (fun m hm => hsp m (List.mem_cons_of_mem _ hm)) (noDD_tail hdd)
    by_cases h45 : n = 45
    · subst h45
      have hns : ns.head? ≠ some 45 := by
        cases ns with
        | nil => simp
        | cons b bs =>
          simp only [List.head?_cons, ne_eq, Option.some.injEq]
          intro hb
          subst hb
          simp [noDD] at hdd
      refine ⟨?_, ?_⟩
      · have he : collapse false (45 :: ns) = 45 :: collapse true ns := by
          simp [collapse, show isDashSpace 45 = true from rfl]
        rw [he, IH.2 hns]
      · intro hh
        simp at hh
    · have hnd : isDashSpace n = false := by
        have := hsp n (List.mem_cons_self _ _)
        simp [isDashSpace, h45, this]
      refine ⟨?_, fun _ => ?_⟩
      · have he : collapse false (n :: ns) = n :: collapse false ns := by
          simp [collapse, hnd]
        rw [he, IH.1]
      · have he : collapse true (n :: ns) = n :: collapse false ns := by
          simp [collapse, hnd]
        rw [he, IH.1]

/-- `dropWhile` is the identity when the head does not satisfy the
predicate. -/
theorem dropWhile_eq_self_head {p : Nat → Bool} {l : List Nat}
    (h : ∀ a, l.head? = some a → p a = false) : l.dropWhile p = l := by
  cases l with
  | nil => rfl
  | cons m ms =>
    rw [List.dropWhile_cons, h m rfl]
    simp

/-- `dropTrailingStrip` is the identity when the last element is not a strip
character. -/
theorem dts_eq_self :
    ∀ l : List Nat, (∀ a, l.getLast? = some a → isStripChar a = false) →
      dropTrailingStrip l = l := by
  intro l
  induction l with
  | nil => intro _; rfl
  | cons m ms ih =>
    intro h
    have h' : ∀ a, ms.getLast? = some a → isStripChar a = false := by
      intro a ha
      apply h
      cases ms with
      | nil => simp at ha
      | cons b bs => rw [List.getLast?_cons_cons]; exact ha
    have hms := ih h'
    rw [dropTrailingStrip, hms]
    cases hc : ms with
    | nil =>
      have hm : isStripChar m = false := by
        apply h
        rw [hc]
        rfl
      simp [hm]
    | cons b bs => rfl

/-- The slug transform is idempotent on code-point lists. -/
theorem slugifyN_idem (l : List Nat) : slugifyN (slugifyN l) = slugifyN l := by
  have halpha : ∀ n ∈ slugifyN l, isSlugAlnumU n = true ∨ n = 45 :=
    fun n hn => slugifyN_alphabet hn
  have harith : ∀ n ∈ slugifyN l,
      (97 ≤ n ∧ n ≤ 122) ∨ (48 ≤ n ∧ n ≤ 57) ∨ n = 95 ∨ n = 45 := by
    intro n hn
    rcases halpha n hn with h | h
    · simp [isSlugAlnumU, isSlugAlnum] at h
      tauto
    · tauto
  have h1 : nfkd (slugifyN l) = slugifyN l :=
    nfkd_eq_self fun n hn => by have := harith n hn; omega
  have h2 : (slugifyN l).filter isAsciiCode = slugifyN l :=
    List.filter_eq_self.mpr fun n hn => by
      have := harith n hn
      simp [isAsciiCode]
      omega
  have h3 : (slugifyN l).map asciiLower = slugifyN l :=
    map_asciiLower_eq_self fun n hn => by have := harith n hn; omega
  have h4 : (slugifyN l).filter (fun n => isPyWord n || isPySpace n || n == 45) =
      slugifyN l :=
    List.filter_eq_self.mpr fun n hn => by
      have := harith n hn
      simp [isPyWord, isPySpace]
      omega
  have hsp : ∀ n ∈ slugifyN l, isPySpace n = false := by
    intro n hn
    have := harith n hn
    simp [isPySpace]
    omega
  have h5 : collapse false (slugifyN l) = slugifyN l :=
    (collapse_eq_self _ hsp (slugifyN_noDD l)).1
  have h6 : (slugifyN l).dropWhile isStripChar = slugifyN l :=
    dropWhile_eq_self_head fun a ha => slugifyN_head ha
  have h7 : dropTrailingStrip (slugifyN l) = slugifyN l :=
    dts_eq_self _ fun a ha => slugifyN_getLast ha
  show pyStrip (collapse false
      ((((nfkd (slugifyN l)).filter isAsciiCode).map asciiLower).filter
        (fun n => isPyWord n || isPySpace n || n == 45))) = slugifyN l
  rw [h1, h2, h3, h4, h5]
  unfold pyStrip
  rw [h6, h7]

/-- A nonempty list has a last element. -/
theorem exists_getLast?_cons (a : Nat) (l : List Nat) :
    ∃ c, (a :: l).getLast? = some c := by
  induction l generalizing a with
  | nil => exact ⟨a, rfl⟩
  | cons b bs ih => rw [List.getLast?_cons_cons]; exact ih b

/-- The last element of a list is a member. -/
theorem mem_of_getLast?N {l : List Nat} {c : Nat} (h : l.getLast? = some c) :
    c ∈ l := by
  induction l with
  | nil => simp at h
  | cons b bs ih =>
    cases bs with
    | nil =>
      have : b = c := Option.some.inj h
      simp [this]
    | cons d ds =>
      rw [List.getLast?_cons_cons] at h
      exact List.mem_cons_of_mem _ (ih h)

/-- When any required `assert` fails, `main` performs no effect and stops
with an `AssertionError`. -/
theorem main_config_fail (env : Env) (w : World) (hc : ¬configOk env = true) :
    ∃ m, main env w = ([], some (RunError.assertionError m)) := by
  by_cases h1 : truthy env.confluenceDomain = true
  · by_cases h2 : truthy env.jiraToken = true
    · by_cases h3 : truthy env.jiraUser = true
      · by_cases h4 : (env.confluenceLabel.getD "jam").isEmpty = true
        · refine ⟨"CONFLUENCE_LABEL not set as environmental variable", ?_⟩
          simp [main, h1, h2, h3, h4]
        · have h4' : (env.confluenceLabel.getD "jam").isEmpty = false :=
            Bool.eq_false_iff.mpr h4
          exact absurd (by simp [configOk, h1, h2, h3, h4']) hc
      · have h3' : truthy env.jiraUser = false := Bool.eq_false_iff.mpr h3
        refine ⟨"JIRA_USER not set as environmental variable", ?_⟩
        simp [main, h1, h2, h3']
    · have h2' : truthy env.jiraToken = false := Bool.eq_false_iff.mpr h2
      refine ⟨"JIRA_TOKEN not set as environmental variable", ?_⟩
      simp [main, h1, h2']
  · have h1' : truthy env.confluenceDomain = false := Bool.eq_false_iff.mpr h1
    refine ⟨"CONFLUENCE_DOMAIN not set as environmental variable", ?_⟩
    simp [main, h1']

/-- With valid configuration and an empty Drive listing, the run performs
exactly the page fetch and the listing call and dies on the `TypeError`. -/
theorem main_empty_listing (env : Env) (w : World) (hc : configOk env = true)
    (hd : w.driveItems = []) :
    main env w =
      ([Effect.fetchPages (env.confluenceLabel.getD "jam"), Effect.listDrive],
        some (RunError.typeError "NoneType object is not iterable")) := by
  simp only [configOk, Bool.and_eq_true] at hc
  obtain ⟨⟨⟨h1, h2⟩, h3⟩, h4⟩ := hc
  have h4' : (env.confluenceLabel.getD "jam").isEmpty = false := by simpa using h4
  simp [main, h1, h2, h3, h4', read_google_drive, hd]

/-- With valid configuration and a nonempty Drive listing, the run is the
fetch, the listing, the purge of the non-folder items and the page loop. -/
theorem main_nonempty_listing (env : Env) (w : World) (hc : configOk env = true)
    (hd : w.driveItems ≠ []) :
    main env w =
      ([Effect.fetchPages (env.confluenceLabel.getD "jam"), Effect.listDrive] ++
        (w.driveItems.filter (fun x => x.mimeType != googleFolderMime)).flatMap
          (fun f => delete_from_google_drive f.id) ++
        w.pages.flatMap (processPage w (env.googleDriveFolderId.getD defaultFolderId)),
        none) := by
  simp only [configOk, Bool.and_eq_true] at hc
  obtain ⟨⟨⟨h1, h2⟩, h3⟩, h4⟩ := hc
  have h4' : (env.confluenceLabel.getD "jam").isEmpty = false := by simpa using h4
  have hd' : w.driveItems.isEmpty = false := by
    cases hq : w.driveItems with
    | nil => exact absurd hq hd
    | cons f fs => rfl
  simp [main, h1, h2, h3, h4', read_google_drive, hd']

/-- C2, counterexample: the claim says every `slugify` output is empty or
matches `^[a-z0-9]+(-[a-z0-9]+)*$`, but `slugify "a_b" = "a_b"` is nonempty
and fails that regex (underscores survive the transform). -/
theorem slug_regex_claim_counterexample :
    slugify "a_b" ≠ "" ∧ matchesSlugRe (slugify "a_b") = false ∧
      slugify "a_b" = "a_b" := by decide

/-- C2, amended: for every input string, the output of `slugify` is empty or
matches `^[a-z0-9_]+(-[a-z0-9_]+)*$` (the spec's class widened by
underscore); in particular it never starts or ends with a hyphen or
underscore and contains no whitespace. -/
theorem slugify_matches_amended_regex (x : String) :
    slugify x = "" ∨
      (matchesSlugReU (slugify x) = true ∧
        (slugify x).data.head? ≠ some '_' ∧
        (slugify x).data.getLast? ≠ some '_') := by
  by_cases hnil : slugifyN (x.data.map Char.toNat) = []
  · left
    show String.mk ((slugifyN (x.data.map Char.toNat)).map Char.ofNat) = ""
    rw [hnil]
    rfl
  · rcases slugifyN_shape (x.data.map Char.toNat) with h | ⟨hm, hh, hl⟩
    · exact absurd h hnil
    · right
      obtain ⟨b, bs, hr⟩ := List.exists_cons_of_ne_nil hnil
      have hdata : (slugify x).data =
          (slugifyN (x.data.map Char.toNat)).map Char.ofNat := rfl
      refine ⟨?_, ?_, ?_⟩
      · unfold matchesSlugReU
        rw [slugify_data]
        exact hm
      · rw [hdata, hr]
        simp only [List.map_cons, List.head?_cons, ne_eq, Option.some.injEq]
        intro hc
        have hble : b ≤ 122 := slug_alnum_le
          (slugifyN_alphabet (by rw [hr]; exact List.mem_cons_self _ _))
        have hb95 : b = 95 := by
          have h2 := congrArg Char.toNat hc
          rwa [toNat_ofNat_le hble] at h2
        apply hh
        rw [hr, hb95]
        rfl
      · rw [hdata, hr]
        obtain ⟨c, hcl⟩ := exists_getLast?_cons b bs
        rw [List.getLast?_map, hcl]
        simp only [Option.map_some', ne_eq, Option.some.injEq]
        intro hc
        have hcmem : c ∈ slugifyN (x.data.map Char.toNat) := by
          rw [hr]
          exact mem_of_getLast?N hcl
        have hcle : c ≤ 122 := slug_alnum_le (slugifyN_alphabet hcmem)
        have hc95 : c = 95 := by
          have h2 := congrArg Char.toNat hc
          rwa [toNat_ofNat_le hcle] at h2
        apply hl
        rw [hr, hcl, hc95]

/-- C3, counterexample: on the input `"  Café—Déjà Vu  "` the slug transform
does not return `"cafe-deja-vu"` as the spec claims. -/
theorem slugify_cafe_counterexample :
    slugify "  Café—Déjà Vu  " ≠ "cafe-deja-vu" := by decide

/-- C3, amended: on `"  Café—Déjà Vu  "` the slug transform returns
`"cafedeja-vu"`: the em dash is non-ASCII, so it is dropped entirely by the
NFKD/ASCII step (before hyphen collapsing), fusing the words around it. -/
theorem slugify_cafe_value :
    slugify "  Café—Déjà Vu  " = "cafedeja-vu" := by decide

/-- C7: the slug transform is a (deterministic, total) function — equal
inputs give equal outputs — and is idempotent. -/
theorem slugify_deterministic_idempotent (x y : String) (h : y = x) :
    slugify y = slugify x ∧ slugify (slugify x) = slugify x := by
  subst h
  refine ⟨rfl, ?_⟩
  show String.mk ((slugifyN ((slugify y).data.map Char.toNat)).map Char.ofNat) =
    slugify y
  rw [slugify_data, slugifyN_idem]
  rfl

/-- C7, witness: the property instantiated at the concrete title
`"Weekly Sync"`. -/
theorem slugify_deterministic_idempotent_witness :
    ("Weekly Sync" : String) = "Weekly Sync" ∧
      (slugify "Weekly Sync" = slugify "Weekly Sync" ∧
        slugify (slugify "Weekly Sync") = slugify "Weekly Sync") :=
  ⟨rfl, slugify_deterministic_idempotent "Weekly Sync" "Weekly Sync" rfl⟩

/-- C9: on the input `"Q3 Planning Notes!!"` the slug transform returns
exactly `"q3-planning-notes"`. -/
theorem slugify_q3_value :
    slugify "Q3 Planning Notes!!" = "q3-planning-notes" := by decide

/-- C1: evidence that the purge is not scoped to the target folder.  The
listing call (`files().list(pageSize=50)` with no folder query) returns
whatever the service account can access; in the run below a non-folder file
residing only in `folder-B` — not in the target folder — is deleted. -/
theorem purge_not_scoped_to_target_folder :
    (∀ f ∈ wScope.driveItems, defaultFolderId ∉ f.parents) ∧
      main envOK wScope =
        ([Effect.fetchPages "jam", Effect.listDrive, Effect.deleteDrive "f1"],
          none) := by decide

/-- C4: every file id passed to `delete_from_google_drive` comes from a
listed entry whose `mimeType` is not the folder mime type. -/
theorem delete_only_nonfolder_entries (env : Env) (w : World) (fid : String)
    (h : Effect.deleteDrive fid ∈ (main env w).1) :
    ∃ f, f ∈ w.driveItems ∧ f.id = fid ∧ f.mimeType ≠ googleFolderMime := by
  by_cases hc : configOk env = true
  · by_cases hd : w.driveItems = []
    · rw [main_empty_listing env w hc hd] at h
      simp at h
    · rw [main_nonempty_listing env w hc hd] at h
      rcases List.mem_append.mp h with h' | h'
      · rcases List.mem_append.mp h' with h2 | h2
        · simp at h2
        · obtain ⟨f, hf, he⟩ := List.mem_flatMap.mp h2
          simp only [delete_from_google_drive, List.mem_singleton,
            Effect.deleteDrive.injEq] at he
          obtain ⟨hmem, hmime⟩ := List.mem_filter.mp hf
          exact ⟨f, hmem, he.symm, by simpa using hmime⟩
      · obtain ⟨p, hp, he⟩ := List.mem_flatMap.mp h'
        simp [processPage, upload_google_drive] at he
  · obtain ⟨m, hm⟩ := main_config_fail env w hc
    rw [hm] at h
    simp at h

/-- C4, witness: the deletion of `f1` in the concrete run traces back to a
non-folder listing entry. -/
theorem delete_only_nonfolder_entries_witness :
    Effect.deleteDrive "f1" ∈ (main envOK wScope).1 ∧
      ∃ f, f ∈ wScope.driveItems ∧ f.id = "f1" ∧
        f.mimeType ≠ googleFolderMime :=
  ⟨by decide, delete_only_nonfolder_entries envOK wScope "f1" (by decide)⟩

/-- C5: when the domain, token or user variable is unset, the run performs
no external effect at all and halts with an `AssertionError`. -/
theorem missing_config_halts_before_network (env : Env) (w : World)
    (h : env.confluenceDomain = none ∨ env.jiraToken = none ∨
      env.jiraUser = none) :
    (main env w).1 = [] ∧
      ∃ m, (main env w).2 = some (RunError.assertionError m) := by
  have hc : ¬configOk env = true := by
    rcases h with h | h | h <;> simp [configOk, h, truthy]
  obtain ⟨m, hm⟩ := main_config_fail env w hc
  rw [hm]
  exact ⟨rfl, m, rfl⟩

/-- C5, witness: with `JIRA_TOKEN` unset the concrete run has an empty
effect trace and an assertion error. -/
theorem missing_config_halts_before_network_witness :
    (envMissing.confluenceDomain = none ∨ envMissing.jiraToken = none ∨
      envMissing.jiraUser = none) ∧
      ((main envMissing wEmptyDrive).1 = [] ∧
        ∃ m, (main envMissing wEmptyDrive).2 =
          some (RunError.assertionError m)) :=
  ⟨Or.inr (Or.inl rfl),
    missing_config_halts_before_network envMissing wEmptyDrive
      (Or.inr (Or.inl rfl))⟩

/-- C6: with zero wiki pages the run still deletes every non-folder entry of
the listing and performs no PDF render and no upload. -/
theorem zero_pages_still_purges (env : Env) (w : World)
    (hc : configOk env = true) (hp : w.pages = []) :
    (∀ e ∈ (main env w).1, (∀ pid, e ≠ Effect.renderPdf pid) ∧
      (∀ pa fo, e ≠ Effect.uploadDrive pa fo)) ∧
    (∀ f ∈ w.driveItems, f.mimeType ≠ googleFolderMime →
      Effect.deleteDrive f.id ∈ (main env w).1) := by
  by_cases hd : w.driveItems = []
  · rw [main_empty_listing env w hc hd]
    constructor
    · intro e he
      have h3 : e = Effect.fetchPages (env.confluenceLabel.getD "jam") ∨
          e = Effect.listDrive := by simpa using he
      rcases h3 with rfl | rfl
      · exact ⟨fun _ => by simp, fun _ _ => by simp⟩
      · exact ⟨fun _ => by simp, fun _ _ => by simp⟩
    · intro f hf
      rw [hd] at hf
      simp at hf
  · rw [main_nonempty_listing env w hc hd, hp]
    constructor
    · intro e he
      simp only [List.flatMap_nil, List.append_nil] at he
      rcases List.mem_append.mp he with h2 | h2
      · have h3 : e = Effect.fetchPages (env.confluenceLabel.getD "jam") ∨
            e = Effect.listDrive := by simpa using h2
        rcases h3 with rfl | rfl
        · exact ⟨fun _ => by simp, fun _ _ => by simp⟩
        · exact ⟨fun _ => by simp, fun _ _ => by simp⟩
      · obtain ⟨f, hf, he2⟩ := List.mem_flatMap.mp h2
        have h4 : e = Effect.deleteDrive f.id := by
          simpa [delete_from_google_drive] using he2
        subst h4
        exact ⟨fun _ => by simp, fun _ _ => by simp⟩
    · intro f hf hm
      simp only [List.flatMap_nil, List.append_nil]
      apply List.mem_append.mpr
      right
      apply List.mem_flatMap.mpr
      exact ⟨f, List.mem_filter.mpr ⟨hf, by simpa using hm⟩,
        by simp [delete_from_google_drive]⟩

/-- C6, witness: concrete run with zero pages and one stale non-folder
file. -/
theorem zero_pages_still_purges_witness :
    configOk envOK = true ∧ wScope.pages = [] ∧
      ((∀ e ∈ (main envOK wScope).1, (∀ pid, e ≠ Effect.renderPdf pid) ∧
        (∀ pa fo, e ≠ Effect.uploadDrive pa fo)) ∧
      (∀ f ∈ wScope.driveItems, f.mimeType ≠ googleFolderMime →
        Effect.deleteDrive f.id ∈ (main envOK wScope).1)) :=
  ⟨by decide, rfl, zero_pages_still_purges envOK wScope (by decide) rfl⟩

/-- C8: two pages with the identical title `Weekly Sync` produce two uploads
of the same colliding path `/tmp/weekly-sync.pdf`; the trace shows the
second page's write to that path (payload `PDF-TWO`, overwriting `PDF-ONE`)
happens after the first upload and before the second. -/
theorem duplicate_titles_collide_and_overwrite :
    main envOK wDup =
      ([Effect.fetchPages "jam", Effect.listDrive, Effect.deleteDrive "f1",
        Effect.renderPdf "p1",
        Effect.writeTmp "/tmp/weekly-sync.pdf" "PDF-ONE",
        Effect.uploadDrive "/tmp/weekly-sync.pdf" defaultFolderId,
        Effect.renderPdf "p2",
        Effect.writeTmp "/tmp/weekly-sync.pdf" "PDF-TWO",
        Effect.uploadDrive "/tmp/weekly-sync.pdf" defaultFolderId], none) ∧
    uploadPathsOf (main envOK wDup).1 =
      ["/tmp/weekly-sync.pdf", "/tmp/weekly-sync.pdf"] := by decide

/-- C10: an empty Drive listing makes `read_google_drive` return `None`;
the run then dies on the `TypeError` from filtering `None`, after only the
page fetch and the listing call — no delete, render, write or upload. -/
theorem empty_listing_aborts (env : Env) (w : World)
    (hc : configOk env = true) (hd : w.driveItems = []) :
    (read_google_drive w.driveItems).2 = none ∧
      (main env w).2 = some (RunError.typeError "NoneType object is not iterable") ∧
      ∀ e ∈ (main env w).1,
        e = Effect.fetchPages (env.confluenceLabel.getD "jam") ∨
          e = Effect.listDrive := by
  have hrun := main_empty_listing env w hc hd
  refine ⟨by simp [read_google_drive, hd], by rw [hrun], ?_⟩
  rw [hrun]
  intro e he
  simpa using he

/-- C10, witness: concrete aborted run on an empty listing. -/
theorem empty_listing_aborts_witness :
    configOk envOK = true ∧ wEmptyDrive.driveItems = [] ∧
      ((read_google_drive wEmptyDrive.driveItems).2 = none ∧
        (main envOK wEmptyDrive).2 =
          some (RunError.typeError "NoneType object is not iterable") ∧
        ∀ e ∈ (main envOK wEmptyDrive).1,
          e = Effect.fetchPages (envOK.confluenceLabel.getD "jam") ∨
            e = Effect.listDrive) :=
  ⟨by decide, rfl, empty_listing_aborts envOK wEmptyDrive (by decide) rfl⟩

end CopyJam
